import Mathlib

/-!
Shallow embedding of `scripts/subset-fonts.py`, a build-time font
subsetting pipeline: it scans content files for characters in configured
Unicode ranges, checks glyph coverage against a reference font, generates
one artifact per (family, weight), and removes certain stale artifacts.

Filesystem effects are modelled as transformations of a `Finset String`
of file names present in the output directory; font files available in
the font directory are a `Finset String` of file names; a parsed font is
a `FontModel` (its best cmap as an association list and its glyph order).
-/

namespace SubsetFonts

/-- A parsed font as the script observes it: `font.getBestCmap()` as an
association list from code point to glyph name, and `font.getGlyphOrder()`
as the list of glyph names. -/
structure FontModel where
  cmap : List (Nat × String)
  glyphOrder : List String
deriving DecidableEq

/-- `glyph_set[0] if glyph_set else '.notdef'` (line 88). -/
def notdefOf (f : FontModel) : String :=
  match f.glyphOrder with
  | [] => ".notdef"
  | g :: _ => g

/-- The per-character test of `check_glyph_coverage` (lines 93-103):
a character is covered when its code point is in the cmap and the glyph
name differs from both the first glyph of the glyph order and the literal
name `.notdef`. -/
def isCovered (f : FontModel) (c : Char) : Bool :=
  match List.lookup c.toNat f.cmap with
  | none => false
  | some g => g != notdefOf f && g != ".notdef"

/-- `check_glyph_coverage` (lines 80-106): splits the input character set
into the covered and the missing characters. -/
def check_glyph_coverage (f : FontModel) (chars : Finset Char) :
    Finset Char × Finset Char :=
  (chars.filter (fun c => isCovered f c),
   chars.filter (fun c => ¬ isCovered f c))

/-- The coverage test the spec describes: missing iff the code point is
absent from the mapping or resolves to the sentinel, where the sentinel
is the first glyph of the glyph ordering; otherwise covered. Stated here
as the spec's covered predicate, for comparison with `isCovered`. -/
def coveredPerSpec (f : FontModel) (c : Char) : Bool :=
  match List.lookup c.toNat f.cmap with
  | none => false
  | some g => g != notdefOf f

/-- C1: For every font and input character set, `check_glyph_coverage`
returns a partition of the input: covered ∪ missing is the input set and
covered ∩ missing is empty. -/
theorem coverage_partitions (f : FontModel) (chars : Finset Char) :
    (check_glyph_coverage f chars).1 ∪ (check_glyph_coverage f chars).2 = chars ∧
    (check_glyph_coverage f chars).1 ∩ (check_glyph_coverage f chars).2 = ∅ :=
  ⟨Finset.filter_union_filter_neg_eq _ chars, by
    rw [← Finset.disjoint_iff_inter_eq_empty]
    exact Finset.disjoint_filter_filter_neg chars chars _⟩

/-- A font whose glyph order does not start with `.notdef`, yet whose cmap
sends code point 0x42 to the glyph named `.notdef`. -/
def oddFont : FontModel :=
  { cmap := [(0x42, ".notdef")], glyphOrder := ["A", ".notdef"] }

/-- C2, counterexample: on `oddFont` the character `B` resolves to a glyph
that is not the sentinel (the first glyph, `A`), so the claim classifies it
as covered; the code classifies it as missing, because it additionally
rejects any glyph literally named `.notdef` (line 98). -/
theorem coverage_literal_notdef_counterexample :
    coveredPerSpec oddFont 'B' = true ∧
    'B' ∈ (check_glyph_coverage oddFont {'B'}).2 := by
  constructor
  · rfl
  · decide

/-- C2, amended: a character of the input is classified missing iff its
code point is absent from the best cmap, or the glyph it resolves to is
the first glyph of the glyph ordering, or that glyph is literally named
`.notdef`; otherwise it is covered. -/
theorem coverage_missing_iff (f : FontModel) (chars : Finset Char) (c : Char)
    (hc : c ∈ chars) :
    c ∈ (check_glyph_coverage f chars).2 ↔
      (List.lookup c.toNat f.cmap = none ∨
       ∃ g, List.lookup c.toNat f.cmap = some g ∧
         (g = notdefOf f ∨ g = ".notdef")) := by
  simp only [check_glyph_coverage, Finset.mem_filter, hc, true_and]
  unfold isCovered
  cases h : List.lookup c.toNat f.cmap with
  | none => simp
  | some g =>
    simp only [Bool.and_eq_true, bne_iff_ne, ne_eq, reduceCtorEq, false_or]
    constructor
    · intro hng
      refine ⟨g, rfl, ?_⟩
      by_cases h1 : g = notdefOf f
      · exact Or.inl h1
      · by_cases h2 : g = ".notdef"
        · exact Or.inr h2
        · exact absurd ⟨h1, h2⟩ hng
    · rintro ⟨g', hg', hor⟩ ⟨hn1, hn2⟩
      cases hg'
      rcases hor with h1 | h2
      · exact hn1 h1
      · exact hn2 h2

/-- C2, witness for the amended theorem at a concrete input. -/
theorem coverage_missing_iff_witness :
    'B' ∈ ({'B'} : Finset Char) ∧
    ('B' ∈ (check_glyph_coverage oddFont {'B'}).2 ↔
      (List.lookup ('B').toNat oddFont.cmap = none ∨
       ∃ g, List.lookup ('B').toNat oddFont.cmap = some g ∧
         (g = notdefOf oddFont ∨ g = ".notdef"))) :=
  ⟨by decide, coverage_missing_iff oddFont {'B'} 'B' (by decide)⟩

/-! ## Configuration: `RANGES` and `RARE_BASIC_CJK` (lines 29-77) -/

/-- One entry of the `RANGES` table: inclusive code-point interval, the
whitelist flag (`rare_only`), and the weight → source-font-file table. -/
structure RangeCfg where
  name : String
  first : Nat
  last : Nat
  rareOnly : Bool
  weights : List (Nat × String)
deriving DecidableEq

/-- `RARE_BASIC_CJK` (lines 73-77): the whitelist of three rare basic CJK
characters, U+8FCC, U+570A, U+6EB7. -/
def RARE_BASIC_CJK : Finset Char :=
  {Char.ofNat 0x8FCC, Char.ofNat 0x570A, Char.ofNat 0x6EB7}

/-- The shared weight table of both configured ranges (lines 34-42, 53-61). -/
def notoSerifWeights : List (Nat × String) :=
  [(200, "NotoSerifCJKsc-ExtraLight.otf"),
   (300, "NotoSerifCJKsc-Light.otf"),
   (400, "NotoSerifCJKsc-Regular.otf"),
   (500, "NotoSerifCJKsc-Medium.otf"),
   (600, "NotoSerifCJKsc-SemiBold.otf"),
   (700, "NotoSerifCJKsc-Bold.otf"),
   (900, "NotoSerifCJKsc-Black.otf")]

/-- `RANGES["CJKExtB-Serif"]` (lines 30-43). -/
def extBCfg : RangeCfg :=
  { name := "CJKExtB-Serif", first := 0x20000, last := 0x2A6DF,
    rareOnly := false, weights := notoSerifWeights }

/-- `RANGES["CJKRare-Serif"]` (lines 49-65). -/
def rareCfg : RangeCfg :=
  { name := "CJKRare-Serif", first := 0x4E00, last := 0x9FFF,
    rareOnly := true, weights := notoSerifWeights }

/-- The `RANGES` table in iteration order. -/
def RANGES : List RangeCfg := [extBCfg, rareCfg]

/-! ## Content scanner: `scan_content` (lines 109-136) -/

/-- The membership test of the scanning loop (lines 128-134): the code
point lies in the configured interval and, for a `rare_only` range, the
character is in the whitelist. -/
def charMatches (cfg : RangeCfg) (c : Char) : Bool :=
  cfg.first ≤ c.toNat && c.toNat ≤ cfg.last &&
    (!cfg.rareOnly || c ∈ RARE_BASIC_CJK)

/-- Characters of one file's text collected for one range. -/
def fileChars (cfg : RangeCfg) (text : List Char) : Finset Char :=
  (text.filter (fun c => charMatches cfg c)).toFinset

/-- `scan_content` (lines 109-136), restricted to one range: folds every
file's characters matching the range into the running set. A file is
its decoded text, a list of characters. -/
def scanContent (files : List (List Char)) (cfg : RangeCfg) : Finset Char :=
  files.foldl (fun acc text => acc ∪ fileChars cfg text) ∅

theorem foldl_union_mem (cfg : RangeCfg) (files : List (List Char))
    (s : Finset Char) (c : Char) :
    (c ∈ files.foldl (fun acc text => acc ∪ fileChars cfg text) s ↔
      c ∈ s ∨ ∃ t ∈ files, c ∈ fileChars cfg t) := by
  induction files generalizing s with
  | nil => simp
  | cons t ts ih =>
    simp only [List.foldl_cons, ih, Finset.mem_union, List.mem_cons]
    constructor
    · rintro ((hs | ht) | ⟨u, hu, hc⟩)
      · exact Or.inl hs
      · exact Or.inr ⟨t, Or.inl rfl, ht⟩
      · exact Or.inr ⟨u, Or.inr hu, hc⟩
    · rintro (hs | ⟨u, (rfl | hu), hc⟩)
      · exact Or.inl (Or.inl hs)
      · exact Or.inl (Or.inr hc)
      · exact Or.inr ⟨u, hu, hc⟩

/-- Membership characterisation of the scanner: a character is collected
for a range iff it occurs in some content file and passes the range's
membership test. -/
theorem mem_scanContent (files : List (List Char)) (cfg : RangeCfg) (c : Char) :
    c ∈ scanContent files cfg ↔
      (∃ t ∈ files, c ∈ t) ∧ charMatches cfg c = true := by
  unfold scanContent
  rw [foldl_union_mem]
  simp only [Finset.not_mem_empty, false_or, fileChars, List.mem_toFinset,
    List.mem_filter]
  constructor
  · rintro ⟨t, ht, hc, hm⟩
    exact ⟨⟨t, ht, hc⟩, hm⟩
  · rintro ⟨⟨t, ht, hc⟩, hm⟩
    exact ⟨t, ht, hc, hm⟩

/-- C8: a scanned character is added to a range's group iff its code point
satisfies the range's inclusive bounds and, for the whitelist-restricted
range, it is in the fixed allow-list; membership in each group is decided
independently of the other group. -/
theorem scan_classification (files : List (List Char)) (c : Char) :
    (c ∈ scanContent files extBCfg ↔
      (∃ t ∈ files, c ∈ t) ∧ 0x20000 ≤ c.toNat ∧ c.toNat ≤ 0x2A6DF) ∧
    (c ∈ scanContent files rareCfg ↔
      (∃ t ∈ files, c ∈ t) ∧ (0x4E00 ≤ c.toNat ∧ c.toNat ≤ 0x9FFF) ∧
        c ∈ RARE_BASIC_CJK) := by
  constructor
  · rw [mem_scanContent]
    simp [charMatches, extBCfg, and_assoc]
  · rw [mem_scanContent]
    simp [charMatches, rareCfg, and_assoc]

/-- C9: the scanner's result is duplicate-free (it is a set) and invariant
under the order in which the content files are processed. -/
theorem scan_deterministic (cfg : RangeCfg) (files₁ files₂ : List (List Char))
    (h : files₁.Perm files₂) :
    scanContent files₁ cfg = scanContent files₂ cfg ∧
    (scanContent files₁ cfg).val.Nodup := by
  refine ⟨Finset.ext fun c => ?_, (scanContent files₁ cfg).nodup⟩
  rw [mem_scanContent, mem_scanContent]
  constructor
  · rintro ⟨⟨t, ht, hc⟩, hm⟩
    exact ⟨⟨t, h.mem_iff.mp ht, hc⟩, hm⟩
  · rintro ⟨⟨t, ht, hc⟩, hm⟩
    exact ⟨⟨t, h.mem_iff.mpr ht, hc⟩, hm⟩

/-- C9, witness: swapping two concrete files leaves the scan unchanged. -/
theorem scan_deterministic_witness :
    ([[Char.ofNat 0x8FCC], [Char.ofNat 0x20000]].Perm
      [[Char.ofNat 0x20000], [Char.ofNat 0x8FCC]]) ∧
    (scanContent [[Char.ofNat 0x8FCC], [Char.ofNat 0x20000]] rareCfg =
      scanContent [[Char.ofNat 0x20000], [Char.ofNat 0x8FCC]] rareCfg ∧
     (scanContent [[Char.ofNat 0x8FCC], [Char.ofNat 0x20000]] rareCfg).val.Nodup) :=
  ⟨List.Perm.swap _ _ _,
   scan_deterministic rareCfg _ _ (List.Perm.swap _ _ _)⟩

/-- C5, counterexample: the claimed baseline union does not exist. For a
corpus whose single file is the rare character U+8FCC, the set handed to
the coverage check for `CJKRare-Serif` contains nothing but that
character: the ASCII letter `A`, part of the claimed always-included
baseline, is absent. -/
theorem no_baseline_counterexample :
    scanContent [[Char.ofNat 0x8FCC]] rareCfg = {Char.ofNat 0x8FCC} ∧
    'A' ∉ scanContent [[Char.ofNat 0x8FCC]] rareCfg ∧
    scanContent [] extBCfg = ∅ := by
  refine ⟨?_, ?_, ?_⟩ <;> decide

/-- C5, amended: nothing is unioned into the scanned set; every character
in the set passed to the coverage check occurs in some content file. -/
theorem scan_only_content_chars (files : List (List Char)) (cfg : RangeCfg)
    (c : Char) (hc : c ∈ scanContent files cfg) : ∃ t ∈ files, c ∈ t :=
  ((mem_scanContent files cfg c).mp hc).1

/-- C5, witness for the amended theorem at a concrete input. -/
theorem scan_only_content_chars_witness :
    Char.ofNat 0x8FCC ∈ scanContent [[Char.ofNat 0x8FCC]] rareCfg ∧
    ∃ t ∈ [[Char.ofNat 0x8FCC]], Char.ofNat 0x8FCC ∈ t :=
  ⟨by decide, scan_only_content_chars _ rareCfg _ (by decide)⟩

/-! ## Subset generator and main loop (lines 139-251)

The output directory is a `Finset String` of file names; `fonts` is the
set of font file names present in `FONT_DIR`; `fontOf` gives the parsed
font for a font file name. -/

/-- The output file name `f"{name}-{weight}.woff2"` (line 143). -/
def artifact (name : String) (weight : Nat) : String :=
  name ++ "-" ++ toString weight ++ ".woff2"

/-- `generate_subset` (lines 139-177) as its effect on the output
directory: return unchanged when the source font is absent; with an empty
character set, remove any existing artifact; otherwise write (insert) the
artifact. -/
def generate_subset (name : String) (weight : Nat) (fontFile : String)
    (chars : Finset Char) (fonts : Finset String) (fs : Finset String) :
    Finset String :=
  if fontFile ∉ fonts then fs
  else if chars = ∅ then fs.erase (artifact name weight)
  else insert (artifact name weight) fs

/-- The character set a group carries into generation (lines 209-227):
when the weight-400 entry exists and its font file is present, the covered
subset from the coverage check; otherwise the scanned set unchanged. -/
def effectiveChars (cfg : RangeCfg) (chars0 : Finset Char)
    (fonts : Finset String) (fontOf : String → FontModel) : Finset Char :=
  match List.lookup 400 cfg.weights with
  | some rf =>
      if rf ∈ fonts then (check_glyph_coverage (fontOf rf) chars0).1
      else chars0
  | none => chars0

/-- One step of the generation loop (lines 239-243): `generate_subset` is
invoked only when the weight's source font exists. -/
def genStep (name : String) (chars : Finset Char) (fonts : Finset String)
    (s : Finset String) (p : Nat × String) : Finset String :=
  if p.2 ∈ fonts then generate_subset name p.1 p.2 chars fonts s else s

/-- One iteration of the main loop over `RANGES` (lines 203-248):
skip a group with no scanned characters; otherwise run the coverage
check against the weight-400 font when available; if the set is then
empty, delete every configured weight's artifact; otherwise generate a
subset for every weight whose source font exists. -/
def processGroup (cfg : RangeCfg) (chars0 : Finset Char)
    (fonts : Finset String) (fontOf : String → FontModel)
    (fs : Finset String) : Finset String :=
  if chars0 = ∅ then fs
  else if effectiveChars cfg chars0 fonts fontOf = ∅ then
    cfg.weights.foldl (fun s p => s.erase (artifact cfg.name p.1)) fs
  else
    cfg.weights.foldl
      (genStep cfg.name (effectiveChars cfg chars0 fonts fontOf) fonts) fs

/-- The loop of `main` over all of `RANGES` (lines 203-248). -/
def runGroups (files : List (List Char)) (fonts : Finset String)
    (fontOf : String → FontModel) (fs : Finset String) : Finset String :=
  RANGES.foldl
    (fun s cfg => processGroup cfg (scanContent files cfg) fonts fontOf s) fs

/-- `main` (lines 180-251): exits non-zero (`none`) on wrong argument
count or a missing content directory; otherwise scans and processes every
group and terminates normally with the resulting output directory. -/
def mainRun (argcOk contentDirOk : Bool) (files : List (List Char))
    (fonts : Finset String) (fontOf : String → FontModel)
    (fs : Finset String) : Option (Finset String) :=
  if argcOk then
    if contentDirOk then some (runGroups files fonts fontOf fs)
    else none
  else none

/-! ## Frame lemmas for the main loop -/

theorem foldl_erase_subset (name : String) (l : List (Nat × String))
    (fs : Finset String) (x : String)
    (hx : x ∈ l.foldl (fun s p => s.erase (artifact name p.1)) fs) :
    x ∈ fs := by
  induction l generalizing fs with
  | nil => exact hx
  | cons p ps ih => exact Finset.mem_of_mem_erase (ih _ hx)

theorem foldl_erase_not_mem (name : String) (l : List (Nat × String))
    (fs : Finset String) (w : Nat) (hw : w ∈ l.map Prod.fst) :
    artifact name w ∉ l.foldl (fun s p => s.erase (artifact name p.1)) fs := by
  induction l generalizing fs with
  | nil => simp at hw
  | cons p ps ih =>
    simp only [List.map_cons, List.mem_cons] at hw
    rcases hw with hw | hw
    · intro hmem
      subst hw
      exact (Finset.not_mem_erase _ _) (foldl_erase_subset _ _ _ _ hmem)
    · exact ih _ hw

theorem foldl_erase_keeps (name : String) (l : List (Nat × String))
    (fs : Finset String) (x : String) (hx : x ∈ fs)
    (hne : ∀ p ∈ l, x ≠ artifact name p.1) :
    x ∈ l.foldl (fun s p => s.erase (artifact name p.1)) fs := by
  induction l generalizing fs with
  | nil => exact hx
  | cons p ps ih =>
    refine ih _ (Finset.mem_erase.mpr ⟨hne p (by simp), hx⟩) ?_
    exact fun q hq => hne q (List.mem_cons_of_mem p hq)

theorem genStep_mono (name : String) (chars : Finset Char)
    (fonts : Finset String) (hchars : chars ≠ ∅) (s : Finset String)
    (p : Nat × String) (x : String) (hx : x ∈ s) :
    x ∈ genStep name chars fonts s p := by
  unfold genStep generate_subset
  by_cases hp : p.2 ∈ fonts <;> simp [hp, hchars, Finset.mem_insert, hx]

theorem foldl_gen_mono (name : String) (chars : Finset Char)
    (fonts : Finset String) (hchars : chars ≠ ∅) (l : List (Nat × String))
    (fs : Finset String) (x : String) (hx : x ∈ fs) :
    x ∈ l.foldl (genStep name chars fonts) fs := by
  induction l generalizing fs with
  | nil => exact hx
  | cons p ps ih => exact ih _ (genStep_mono name chars fonts hchars fs p x hx)

theorem foldl_gen_generates (name : String) (chars : Finset Char)
    (fonts : Finset String) (hchars : chars ≠ ∅) (l : List (Nat × String))
    (fs : Finset String) (w : Nat) (ff : String)
    (hwff : (w, ff) ∈ l) (hff : ff ∈ fonts) :
    artifact name w ∈ l.foldl (genStep name chars fonts) fs := by
  induction l generalizing fs with
  | nil => simp at hwff
  | cons p ps ih =>
    rcases List.mem_cons.mp hwff with hw | hw
    · subst hw
      refine foldl_gen_mono name chars fonts hchars ps _ _ ?_
      simp [genStep, generate_subset, hff, hchars]
    · exact ih _ hw

theorem foldl_gen_frame (name : String) (chars : Finset Char)
    (fonts : Finset String) (l : List (Nat × String)) (fs : Finset String)
    (x : String)
    (hne : ∀ p ∈ l, x ≠ artifact name p.1) :
    (x ∈ l.foldl (genStep name chars fonts) fs ↔ x ∈ fs) := by
  induction l generalizing fs with
  | nil => exact Iff.rfl
  | cons p ps ih =>
    rw [List.foldl_cons,
      ih _ (fun q hq => hne q (List.mem_cons_of_mem p hq))]
    have hxp := hne p (by simp)
    unfold genStep generate_subset
    by_cases hp : p.2 ∈ fonts
    · by_cases hc : chars = ∅ <;>
        simp [hp, hc, Finset.mem_erase, Finset.mem_insert, hxp]
    · simp [hp]

theorem foldl_gen_mem_src (name : String) (chars : Finset Char)
    (fonts : Finset String) (l : List (Nat × String)) (fs : Finset String)
    (x : String) (hx : x ∈ l.foldl (genStep name chars fonts) fs) :
    x ∈ fs ∨ ∃ p ∈ l, x = artifact name p.1 := by
  induction l generalizing fs with
  | nil => exact Or.inl hx
  | cons p ps ih =>
    rcases ih _ hx with hx' | ⟨q, hq, hxq⟩
    · revert hx'
      unfold genStep generate_subset
      by_cases hp : p.2 ∈ fonts
      · by_cases hc : chars = ∅
        · simp only [hp, hc]
          intro hx'
          exact Or.inl (Finset.mem_of_mem_erase (by simpa using hx'))
        · simp only [hp, hc]
          intro hx'
          rcases Finset.mem_insert.mp (by simpa using hx') with heq | hin
          · exact Or.inr ⟨p, by simp, heq⟩
          · exact Or.inl hin
      · simp only [hp, if_neg]
        intro hx'
        exact Or.inl (by simpa using hx')
    · exact Or.inr ⟨q, List.mem_cons_of_mem p hq, hxq⟩

/-- Anything present after a group's processing was present before or is
one of that group's own artifact names. -/
theorem processGroup_mem_src (cfg : RangeCfg) (chars0 : Finset Char)
    (fonts : Finset String) (fontOf : String → FontModel)
    (fs : Finset String) (x : String)
    (hx : x ∈ processGroup cfg chars0 fonts fontOf fs) :
    x ∈ fs ∨ ∃ p ∈ cfg.weights, x = artifact cfg.name p.1 := by
  unfold processGroup at hx
  by_cases h0 : chars0 = ∅
  · rw [if_pos h0] at hx; exact Or.inl hx
  · rw [if_neg h0] at hx
    by_cases hc : effectiveChars cfg chars0 fonts fontOf = ∅
    · rw [if_pos hc] at hx
      exact Or.inl (foldl_erase_subset _ _ _ _ hx)
    · rw [if_neg hc] at hx
      exact foldl_gen_mem_src _ _ _ _ _ _ hx

/-- A file whose name is not an artifact name of the group survives the
group's processing. -/
theorem processGroup_frame (cfg : RangeCfg) (chars0 : Finset Char)
    (fonts : Finset String) (fontOf : String → FontModel)
    (fs : Finset String) (x : String) (hx : x ∈ fs)
    (hne : ∀ p ∈ cfg.weights, x ≠ artifact cfg.name p.1) :
    x ∈ processGroup cfg chars0 fonts fontOf fs := by
  unfold processGroup
  by_cases h0 : chars0 = ∅
  · rw [if_pos h0]; exact hx
  · rw [if_neg h0]
    by_cases hc : effectiveChars cfg chars0 fonts fontOf = ∅
    · rw [if_pos hc]
      exact foldl_erase_keeps _ _ _ _ hx hne
    · rw [if_neg hc]
      exact (foldl_gen_frame _ _ _ _ _ _ hne).mpr hx

/-- Generation-loop frame with a per-weight condition: the membership
status of `x` is unchanged when every weight either names a different
artifact or has no source font present. -/
theorem foldl_gen_frame_cond (name : String) (chars : Finset Char)
    (fonts : Finset String) (hchars : chars ≠ ∅) (l : List (Nat × String))
    (fs : Finset String) (x : String)
    (hne : ∀ p ∈ l, x ≠ artifact name p.1 ∨ p.2 ∉ fonts) :
    (x ∈ l.foldl (genStep name chars fonts) fs ↔ x ∈ fs) := by
  induction l generalizing fs with
  | nil => exact Iff.rfl
  | cons p ps ih =>
    rw [List.foldl_cons,
      ih _ (fun q hq => hne q (List.mem_cons_of_mem p hq))]
    rcases hne p (by simp) with hxp | hp
    · unfold genStep generate_subset
      by_cases hpf : p.2 ∈ fonts
      · simp [hpf, hchars, Finset.mem_insert, hxp]
      · simp [hpf]
    · simp [genStep, hp]

/-- A string that is none of a group's artifact names keeps its
membership status across that group's processing. -/
theorem processGroup_status_frame (cfg : RangeCfg) (chars0 : Finset Char)
    (fonts : Finset String) (fontOf : String → FontModel)
    (fs : Finset String) (x : String)
    (hne : ∀ p ∈ cfg.weights, x ≠ artifact cfg.name p.1) :
    (x ∈ processGroup cfg chars0 fonts fontOf fs ↔ x ∈ fs) := by
  constructor
  · intro hx
    rcases processGroup_mem_src cfg chars0 fonts fontOf fs x hx with h | ⟨p, hp, hxq⟩
    · exact h
    · exact absurd hxq (hne p hp)
  · intro hx
    exact processGroup_frame cfg chars0 fonts fontOf fs x hx hne

/-- Artifact names built from distinct family names of equal length are
distinct, whatever the weights. -/
theorem artifact_ne_of_name_ne (n₁ n₂ : String) (w₁ w₂ : Nat)
    (hlen : n₁.data.length = n₂.data.length) (hne : n₁ ≠ n₂) :
    artifact n₁ w₁ ≠ artifact n₂ w₂ := by
  intro h
  apply hne
  have hd : (artifact n₁ w₁).data = (artifact n₂ w₂).data := by rw [h]
  simp only [artifact, String.data_append, List.append_assoc] at hd
  exact congrArg String.mk (List.append_inj_left hd hlen)

/-- C10: when the source font file is absent, `generate_subset` changes
nothing on disk: the existence check returns before the empty-set
deletion branch is reached, so even an empty character set deletes no
existing artifact. -/
theorem generate_subset_missing_source_noop (name : String) (weight : Nat)
    (fontFile : String) (chars : Finset Char) (fonts : Finset String)
    (fs : Finset String) (h : fontFile ∉ fonts) :
    generate_subset name weight fontFile chars fonts fs = fs := by
  simp [generate_subset, h]

/-- C10, witness: with the source font absent and the character set
empty, an existing artifact at the output slot survives. -/
theorem generate_subset_missing_source_noop_witness :
    "NotoSerifCJKsc-Regular.otf" ∉ (∅ : Finset String) ∧
    generate_subset "CJKExtB-Serif" 400 "NotoSerifCJKsc-Regular.otf" ∅ ∅
        {"CJKExtB-Serif-400.woff2"} = {"CJKExtB-Serif-400.woff2"} :=
  ⟨by decide,
   generate_subset_missing_source_noop "CJKExtB-Serif" 400
     "NotoSerifCJKsc-Regular.otf" ∅ ∅ {"CJKExtB-Serif-400.woff2"} (by decide)⟩

/-! ## Concrete fonts and corpora used in counterexamples and witnesses -/

/-- A font with no cmap entries and no glyphs: covers nothing. -/
def emptyFont : FontModel := { cmap := [], glyphOrder := [] }

/-- U+20000, the first CJK Extension B ideograph: inside the
`CJKExtB-Serif` interval. -/
def ideographB : Char := Char.ofNat 0x20000

/-- A font that maps U+20000 to a real glyph. -/
def goodFont : FontModel :=
  { cmap := [(0x20000, "uni20000")], glyphOrder := [".notdef", "uni20000"] }

/-- C3, counterexample: a group whose scanned character set is already
empty at scan time is skipped without any cleanup. With an empty corpus,
an existing artifact at the `CJKExtB-Serif` weight-400 slot survives the
run, though the claim says it is deleted. -/
theorem scan_empty_keeps_stale_counterexample :
    scanContent [] extBCfg = ∅ ∧
    "CJKExtB-Serif-400.woff2" ∈
      runGroups [] ∅ (fun _ => emptyFont) {"CJKExtB-Serif-400.woff2"} := by
  decide

/-- C4, counterexample: the run performs no retired-scheme sweep. A file
named after a configuration not present in `RANGES` survives a run that
does generate a current artifact. -/
theorem retired_file_kept_counterexample :
    "NushuSerif-400.woff2" ∈
      runGroups [[ideographB]] {"NotoSerifCJKsc-Regular.otf"}
        (fun _ => goodFont) {"NushuSerif-400.woff2"} ∧
    "CJKExtB-Serif-400.woff2" ∈
      runGroups [[ideographB]] {"NotoSerifCJKsc-Regular.otf"}
        (fun _ => goodFont) {"NushuSerif-400.woff2"} := by
  decide

/-- C6, counterexample: the reference (weight-400) font is absent while
the group has scanned characters, yet the run terminates normally
(`some`, exit 0) and even generates an artifact for the weight-700
source font that is present — there is no non-zero exit. -/
theorem missing_ref_font_not_fatal_counterexample :
    (mainRun true true [[ideographB]] {"NotoSerifCJKsc-Bold.otf"}
        (fun _ => emptyFont) ∅).isSome = true ∧
    "CJKExtB-Serif-700.woff2" ∈
      runGroups [[ideographB]] {"NotoSerifCJKsc-Bold.otf"}
        (fun _ => emptyFont) ∅ := by
  decide

/-- C7, counterexample: the weight-700 source font is absent, yet its
artifact is deleted: the scanned set is non-empty, the reference font
covers none of it, and the resulting cleanup removes the artifacts of
every configured weight, existing source font or not. -/
theorem missing_source_weight_deleted_counterexample :
    "NotoSerifCJKsc-Bold.otf" ∉ ({"NotoSerifCJKsc-Regular.otf"} : Finset String) ∧
    "CJKExtB-Serif-700.woff2" ∉
      runGroups [[ideographB]] {"NotoSerifCJKsc-Regular.otf"}
        (fun _ => emptyFont) {"CJKExtB-Serif-700.woff2"} := by
  decide

/-! ## Composition of the two configured groups -/

theorem runGroups_eq (files : List (List Char)) (fonts : Finset String)
    (fontOf : String → FontModel) (fs : Finset String) :
    runGroups files fonts fontOf fs =
      processGroup rareCfg (scanContent files rareCfg) fonts fontOf
        (processGroup extBCfg (scanContent files extBCfg) fonts fontOf fs) :=
  rfl

theorem mem_RANGES_iff (cfg : RangeCfg) :
    cfg ∈ RANGES ↔ cfg = extBCfg ∨ cfg = rareCfg := by
  simp [RANGES]

theorem processGroup_generates (cfg : RangeCfg) (chars0 : Finset Char)
    (fonts : Finset String) (fontOf : String → FontModel) (s : Finset String)
    (w : Nat) (ff : String) (h0 : chars0 ≠ ∅)
    (he : effectiveChars cfg chars0 fonts fontOf ≠ ∅)
    (hw : (w, ff) ∈ cfg.weights) (hff : ff ∈ fonts) :
    artifact cfg.name w ∈ processGroup cfg chars0 fonts fontOf s := by
  unfold processGroup
  rw [if_neg h0, if_neg he]
  exact foldl_gen_generates _ _ _ he _ _ _ _ hw hff

theorem processGroup_skips_iff (cfg : RangeCfg) (chars0 : Finset Char)
    (fonts : Finset String) (fontOf : String → FontModel) (s : Finset String)
    (w : Nat) (h0 : chars0 ≠ ∅)
    (he : effectiveChars cfg chars0 fonts fontOf ≠ ∅)
    (hne : ∀ p ∈ cfg.weights,
      artifact cfg.name w ≠ artifact cfg.name p.1 ∨ p.2 ∉ fonts) :
    (artifact cfg.name w ∈ processGroup cfg chars0 fonts fontOf s ↔
      artifact cfg.name w ∈ s) := by
  unfold processGroup
  rw [if_neg h0, if_neg he]
  exact foldl_gen_frame_cond _ _ _ he _ _ _ hne

theorem processGroup_deletes (cfg : RangeCfg) (chars0 : Finset Char)
    (fonts : Finset String) (fontOf : String → FontModel) (s : Finset String)
    (w : Nat) (h0 : chars0 ≠ ∅)
    (he : effectiveChars cfg chars0 fonts fontOf = ∅)
    (hw : w ∈ cfg.weights.map Prod.fst) :
    artifact cfg.name w ∉ processGroup cfg chars0 fonts fontOf s := by
  unfold processGroup
  rw [if_neg h0, if_pos he]
  exact foldl_erase_not_mem _ _ _ _ hw

/-- C3, amended: an artifact is deleted exactly through the post-coverage
cleanup: when a group's scanned set is non-empty but the coverage check
against the present reference font leaves nothing covered, every
configured weight's artifact of that group is absent after the run.
A group whose set is already empty at scan time is skipped with no
deletion. -/
theorem coverage_emptied_artifact_deleted (files : List (List Char))
    (fonts : Finset String) (fontOf : String → FontModel) (fs : Finset String)
    (cfg : RangeCfg) (rf : String) (w : Nat)
    (hcfg : cfg ∈ RANGES)
    (h0 : scanContent files cfg ≠ ∅)
    (hrf : List.lookup 400 cfg.weights = some rf)
    (hrfp : rf ∈ fonts)
    (hcov : (check_glyph_coverage (fontOf rf) (scanContent files cfg)).1 = ∅)
    (hw : w ∈ cfg.weights.map Prod.fst) :
    artifact cfg.name w ∉ runGroups files fonts fontOf fs := by
  have hec : effectiveChars cfg (scanContent files cfg) fonts fontOf = ∅ := by
    simp only [effectiveChars, hrf]
    rw [if_pos hrfp]
    exact hcov
  rw [runGroups_eq]
  rcases (mem_RANGES_iff cfg).mp hcfg with rfl | rfl
  · intro hmem
    rcases processGroup_mem_src rareCfg (scanContent files rareCfg) fonts
        fontOf _ _ hmem with h | ⟨p, hp, heq⟩
    · exact processGroup_deletes extBCfg _ fonts fontOf fs w h0 hec hw h
    · exact absurd heq (artifact_ne_of_name_ne _ _ _ _ (by decide) (by decide))
  · exact processGroup_deletes rareCfg _ fonts fontOf _ w h0 hec hw

/-- C3, witness: a concrete run in which the scanned set is non-empty but
the reference font covers none of it; the stale weight-400 artifact is
gone afterwards. -/
theorem coverage_emptied_artifact_deleted_witness :
    (extBCfg ∈ RANGES ∧
     scanContent [[ideographB]] extBCfg ≠ ∅ ∧
     List.lookup 400 extBCfg.weights = some "NotoSerifCJKsc-Regular.otf" ∧
     "NotoSerifCJKsc-Regular.otf" ∈
       ({"NotoSerifCJKsc-Regular.otf"} : Finset String) ∧
     (check_glyph_coverage ((fun _ => emptyFont) "NotoSerifCJKsc-Regular.otf")
        (scanContent [[ideographB]] extBCfg)).1 = ∅ ∧
     400 ∈ extBCfg.weights.map Prod.fst) ∧
    artifact extBCfg.name 400 ∉
      runGroups [[ideographB]] {"NotoSerifCJKsc-Regular.otf"}
        (fun _ => emptyFont) {"CJKExtB-Serif-400.woff2"} :=
  ⟨⟨by decide, by decide, by decide, by decide, by decide, by decide⟩,
   coverage_emptied_artifact_deleted [[ideographB]]
     {"NotoSerifCJKsc-Regular.otf"} (fun _ => emptyFont)
     {"CJKExtB-Serif-400.woff2"} extBCfg "NotoSerifCJKsc-Regular.otf" 400
     (by decide) (by decide) (by decide) (by decide) (by decide) (by decide)⟩

/-- C4, amended: there is no retired-scheme sweep. The run never deletes
a file whose name is not an artifact name of the current configuration:
any such file present before the run is still present after it. -/
theorem no_retired_sweep (files : List (List Char)) (fonts : Finset String)
    (fontOf : String → FontModel) (fs : Finset String) (x : String)
    (hx : x ∈ fs)
    (hne : ∀ cfg ∈ RANGES, ∀ p ∈ cfg.weights, x ≠ artifact cfg.name p.1) :
    x ∈ runGroups files fonts fontOf fs := by
  rw [runGroups_eq]
  refine processGroup_frame rareCfg _ fonts fontOf _ x ?_
    (hne rareCfg (by simp [RANGES]))
  exact processGroup_frame extBCfg _ fonts fontOf fs x hx
    (hne extBCfg (by simp [RANGES]))

/-- C4, witness: a file named after a retired scheme survives a concrete
run that generates a current artifact. -/
theorem no_retired_sweep_witness :
    "NushuSerif-400.woff2" ∈ ({"NushuSerif-400.woff2"} : Finset String) ∧
    (∀ cfg ∈ RANGES, ∀ p ∈ cfg.weights,
      "NushuSerif-400.woff2" ≠ artifact cfg.name p.1) ∧
    "NushuSerif-400.woff2" ∈
      runGroups [[ideographB]] {"NotoSerifCJKsc-Regular.otf"}
        (fun _ => goodFont) {"NushuSerif-400.woff2"} :=
  ⟨by decide, by decide,
   no_retired_sweep [[ideographB]] {"NotoSerifCJKsc-Regular.otf"}
     (fun _ => goodFont) {"NushuSerif-400.woff2"} "NushuSerif-400.woff2"
     (by decide) (by decide)⟩

/-- C6, amended: a missing reference (weight-400) font is not fatal. The
run terminates normally, the coverage check is skipped, and the group's
subsets are generated from the unverified scanned set for every weight
whose own source font exists. -/
theorem missing_ref_font_proceeds (files : List (List Char))
    (fonts : Finset String) (fontOf : String → FontModel) (fs : Finset String)
    (cfg : RangeCfg) (rf : String) (w : Nat) (ff : String)
    (hcfg : cfg ∈ RANGES)
    (hrf : List.lookup 400 cfg.weights = some rf)
    (hrfp : rf ∉ fonts)
    (h0 : scanContent files cfg ≠ ∅)
    (hw : (w, ff) ∈ cfg.weights) (hff : ff ∈ fonts) :
    mainRun true true files fonts fontOf fs =
      some (runGroups files fonts fontOf fs) ∧
    artifact cfg.name w ∈ runGroups files fonts fontOf fs := by
  have hec : effectiveChars cfg (scanContent files cfg) fonts fontOf =
      scanContent files cfg := by
    simp only [effectiveChars, hrf]
    rw [if_neg hrfp]
  have he : effectiveChars cfg (scanContent files cfg) fonts fontOf ≠ ∅ := by
    rw [hec]; exact h0
  refine ⟨rfl, ?_⟩
  rw [runGroups_eq]
  rcases (mem_RANGES_iff cfg).mp hcfg with rfl | rfl
  · refine processGroup_frame rareCfg _ fonts fontOf _ _ ?_ ?_
    · exact processGroup_generates extBCfg _ fonts fontOf fs w ff h0 he hw hff
    · exact fun p hp => artifact_ne_of_name_ne _ _ _ _ (by decide) (by decide)
  · exact processGroup_generates rareCfg _ fonts fontOf _ w ff h0 he hw hff

/-- C6, witness: the reference font is absent, the group has scanned
characters, and the run still completes and generates the weight-700
artifact whose source font exists. -/
theorem missing_ref_font_proceeds_witness :
    (extBCfg ∈ RANGES ∧
     List.lookup 400 extBCfg.weights = some "NotoSerifCJKsc-Regular.otf" ∧
     "NotoSerifCJKsc-Regular.otf" ∉
       ({"NotoSerifCJKsc-Bold.otf"} : Finset String) ∧
     scanContent [[ideographB]] extBCfg ≠ ∅ ∧
     (700, "NotoSerifCJKsc-Bold.otf") ∈ extBCfg.weights ∧
     "NotoSerifCJKsc-Bold.otf" ∈ ({"NotoSerifCJKsc-Bold.otf"} : Finset String)) ∧
    (mainRun true true [[ideographB]] {"NotoSerifCJKsc-Bold.otf"}
        (fun _ => emptyFont) ∅ =
      some (runGroups [[ideographB]] {"NotoSerifCJKsc-Bold.otf"}
        (fun _ => emptyFont) ∅) ∧
     artifact extBCfg.name 700 ∈
       runGroups [[ideographB]] {"NotoSerifCJKsc-Bold.otf"}
         (fun _ => emptyFont) ∅) :=
  ⟨⟨by decide, by decide, by decide, by decide, by decide, by decide⟩,
   missing_ref_font_proceeds [[ideographB]] {"NotoSerifCJKsc-Bold.otf"}
     (fun _ => emptyFont) ∅ extBCfg "NotoSerifCJKsc-Regular.otf" 700
     "NotoSerifCJKsc-Bold.otf" (by decide) (by decide) (by decide)
     (by decide) (by decide) (by decide)⟩

/-- C7, amended: provided the group's character set is still non-empty
after the coverage step, a weight whose source font is absent is skipped
— its artifact slot keeps exactly its previous state — and every weight
whose source font exists is generated. When the coverage step empties
the set, the cleanup instead deletes the artifacts of all configured
weights, present source font or not. -/
theorem missing_source_weight_skipped (files : List (List Char))
    (fonts : Finset String) (fontOf : String → FontModel) (fs : Finset String)
    (cfg : RangeCfg) (w : Nat) (ff : String)
    (hcfg : cfg ∈ RANGES)
    (hw : (w, ff) ∈ cfg.weights)
    (hff : ff ∉ fonts)
    (h0 : scanContent files cfg ≠ ∅)
    (he : effectiveChars cfg (scanContent files cfg) fonts fontOf ≠ ∅) :
    (artifact cfg.name w ∈ runGroups files fonts fontOf fs ↔
      artifact cfg.name w ∈ fs) ∧
    ∀ w' ff', (w', ff') ∈ cfg.weights → ff' ∈ fonts →
      artifact cfg.name w' ∈ runGroups files fonts fontOf fs := by
  rcases (mem_RANGES_iff cfg).mp hcfg with rfl | rfl
  · have hne : ∀ p ∈ extBCfg.weights,
        artifact extBCfg.name w ≠ artifact extBCfg.name p.1 ∨ p.2 ∉ fonts := by
      simp only [extBCfg, notoSerifWeights, List.mem_cons, List.not_mem_nil,
        or_false, Prod.mk.injEq] at hw
      rcases hw with ⟨rfl, rfl⟩ | ⟨rfl, rfl⟩ | ⟨rfl, rfl⟩ | ⟨rfl, rfl⟩ |
        ⟨rfl, rfl⟩ | ⟨rfl, rfl⟩ | ⟨rfl, rfl⟩ <;>
      · intro p hp
        fin_cases hp <;>
          first
            | exact Or.inr hff
            | exact Or.inl (by decide)
    constructor
    · rw [runGroups_eq,
        processGroup_status_frame rareCfg _ fonts fontOf _ _
          (fun p hp => artifact_ne_of_name_ne _ _ _ _ (by decide) (by decide))]
      exact processGroup_skips_iff extBCfg _ fonts fontOf fs w h0 he hne
    · intro w' ff' hw' hff'
      rw [runGroups_eq]
      refine processGroup_frame rareCfg _ fonts fontOf _ _ ?_
        (fun p hp => artifact_ne_of_name_ne _ _ _ _ (by decide) (by decide))
      exact processGroup_generates extBCfg _ fonts fontOf fs w' ff' h0 he hw' hff'
  · have hne : ∀ p ∈ rareCfg.weights,
        artifact rareCfg.name w ≠ artifact rareCfg.name p.1 ∨ p.2 ∉ fonts := by
      simp only [rareCfg, notoSerifWeights, List.mem_cons, List.not_mem_nil,
        or_false, Prod.mk.injEq] at hw
      rcases hw with ⟨rfl, rfl⟩ | ⟨rfl, rfl⟩ | ⟨rfl, rfl⟩ | ⟨rfl, rfl⟩ |
        ⟨rfl, rfl⟩ | ⟨rfl, rfl⟩ | ⟨rfl, rfl⟩ <;>
      · intro p hp
        fin_cases hp <;>
          first
            | exact Or.inr hff
            | exact Or.inl (by decide)
    constructor
    · rw [runGroups_eq,
        processGroup_skips_iff rareCfg _ fonts fontOf _ w h0 he hne]
      exact processGroup_status_frame extBCfg _ fonts fontOf fs _
        (fun p hp => artifact_ne_of_name_ne _ _ _ _ (by decide) (by decide))
    · intro w' ff' hw' hff'
      rw [runGroups_eq]
      exact processGroup_generates rareCfg _ fonts fontOf _ w' ff' h0 he hw' hff'

/-- C7, witness: weight 700's source font is absent while the reference
font is present and covers the scanned character; the weight-700 slot is
untouched (empty before, empty after) and weight 400 is generated. -/
theorem missing_source_weight_skipped_witness :
    (extBCfg ∈ RANGES ∧
     (700, "NotoSerifCJKsc-Bold.otf") ∈ extBCfg.weights ∧
     "NotoSerifCJKsc-Bold.otf" ∉
       ({"NotoSerifCJKsc-Regular.otf"} : Finset String) ∧
     scanContent [[ideographB]] extBCfg ≠ ∅ ∧
     effectiveChars extBCfg (scanContent [[ideographB]] extBCfg)
       {"NotoSerifCJKsc-Regular.otf"} (fun _ => goodFont) ≠ ∅) ∧
    ((artifact extBCfg.name 700 ∈
        runGroups [[ideographB]] {"NotoSerifCJKsc-Regular.otf"}
          (fun _ => goodFont) ∅ ↔
      artifact extBCfg.name 700 ∈ (∅ : Finset String)) ∧
     ∀ w' ff', (w', ff') ∈ extBCfg.weights →
       ff' ∈ ({"NotoSerifCJKsc-Regular.otf"} : Finset String) →
       artifact extBCfg.name w' ∈
         runGroups [[ideographB]] {"NotoSerifCJKsc-Regular.otf"}
           (fun _ => goodFont) ∅) :=
  ⟨⟨by decide, by decide, by decide, by decide, by decide⟩,
   missing_source_weight_skipped [[ideographB]]
     {"NotoSerifCJKsc-Regular.otf"} (fun _ => goodFont) ∅ extBCfg 700
     "NotoSerifCJKsc-Bold.otf" (by decide) (by decide) (by decide)
     (by decide) (by decide)⟩

end SubsetFonts
